import Mathlib

/-!
# A shallow embedding of `cms.cpp`

The program keeps all of its persistent state in files of the working
directory: `users.txt` (the credential ledger), `files.txt` (the index of
managed files), one file per managed file, `temp.txt` (scratch file used when
the index is rewritten) and `log.txt` (written by the `Logger` observer).

The file system is modelled as a flat map from names to contents: every
string is the name of a possible file, distinct names denote distinct files,
an `ifstream` opens exactly when the file exists, an `ofstream` always opens,
`remove` succeeds exactly when the file exists.  `cout` is modelled as the
text written so far, `endl` as a newline.  The sequence of messages passed to
`Subject::notify` is recorded in `notified`.  Methods returning `void` are
functions from state to state; their outcome is the text they print.
-/

namespace CMS

/-! ## Stream extraction -/

/-- The `isspace` classification of the C locale, which ends a `>>` word. -/
def isspace (c : Char) : Bool :=
  c = ' ' || c = '\t' || c = '\n' || c = '\r' || c.toNat = 11 || c.toNat = 12

/-- Successive `stream >> word` extractions over the remaining characters;
`acc` holds the characters of the word being read, most recent first. -/
def wordsAux : List Char → List Char → List String
  | [], acc => if acc = [] then [] else [String.mk acc.reverse]
  | c :: cs, acc =>
    if isspace c then
      if acc = [] then wordsAux cs [] else String.mk acc.reverse :: wordsAux cs []
    else wordsAux cs (c :: acc)

/-- All the words that repeated `stream >> word` reads from a text. -/
def extractWords (content : String) : List String :=
  wordsAux content.data []

/-- Successive `getline(stream, line)` calls over the remaining characters. -/
def linesAux : List Char → List Char → List String
  | [], acc => if acc = [] then [] else [String.mk acc.reverse]
  | c :: cs, acc =>
    if c = '\n' then String.mk acc.reverse :: linesAux cs []
    else linesAux cs (c :: acc)

/-- All the lines that repeated `getline` reads from a text. -/
def getlines (content : String) : List String :=
  linesAux content.data []

/-- The loop `while (file >> a >> b >> c)`: the complete triples, in order. -/
def triples : List String → List (String × String × String)
  | a :: b :: c :: rest => (a, b, c) :: triples rest
  | _ => []

/-- Text produced by `stream << x << endl` for each element. -/
def writeLines (xs : List String) : String :=
  xs.foldl (fun text x => text ++ x ++ "\n") ""

/-! ## Files -/

/-- The working directory: file name to content. -/
abbrev FileSystem := String → Option String

/-- Effect of `ofstream f(name); f << text;`: create or truncate, then write. -/
def writeFile (fs : FileSystem) (name text : String) : FileSystem :=
  fun n => if n = name then some text else fs n

/-- Effect of `ofstream f(name, ios::app); f << text;`. -/
def appendFile (fs : FileSystem) (name text : String) : FileSystem :=
  fun n => if n = name then some ((fs name).getD "" ++ text) else fs n

/-- The call `remove(name)`: `none` stands for a non-zero return value. -/
def removeFile (fs : FileSystem) (name : String) : Option FileSystem :=
  match fs name with
  | none => none
  | some _ => some (fun n => if n = name then none else fs n)

/-- The call `rename(old, new)`; nothing happens when `old` does not exist. -/
def renameFile (fs : FileSystem) (old new : String) : FileSystem :=
  match fs old with
  | none => fs
  | some text => fun n => if n = new then some text else if n = old then none else fs n

/-- Words read from a file by a `>>` loop; an unopened stream yields none. -/
def readWords (fs : FileSystem) (name : String) : List String :=
  match fs name with
  | none => []
  | some text => extractWords text

/-! ## Observers and program state -/

/-- The concrete observers of the program. -/
inductive Observer where
  | logger
  deriving DecidableEq, Repr

/-- Program state: the files, the attached observers of the `UserManager`
singleton, the messages passed to `notify` so far, and the text sent to `cout`. -/
structure State where
  fs : FileSystem
  observers : List Observer
  notified : List String
  out : String

/-- Writing a text to `cout`. -/
def State.print (s : State) (text : String) : State :=
  { s with out := s.out ++ text }

namespace Logger

/-- The method `Logger::update`: append the message and a newline to `log.txt`. -/
def update (fs : FileSystem) (message : String) : FileSystem :=
  appendFile fs "log.txt" (message ++ "\n")

end Logger

/-- Virtual dispatch of `Observer::update`. -/
def Observer.update : Observer → FileSystem → String → FileSystem
  | .logger, fs, message => Logger.update fs message

namespace ObserverFactory

/-- The function `ObserverFactory::createObserver`; `none` is `nullptr`. -/
def createObserver (type : String) : Option Observer :=
  if type = "logger" then some Observer.logger else none

end ObserverFactory

namespace Subject

/-- The method `Subject::attach`. -/
def attach (s : State) (observer : Observer) : State :=
  { s with observers := s.observers ++ [observer] }

/-- The method `Subject::detach`: erase the first equal observer. -/
def detach (s : State) (observer : Observer) : State :=
  { s with observers := s.observers.erase observer }

/-- The method `Subject::notify`: every observer is updated, in order. -/
def notify (s : State) (message : String) : State :=
  { s with
    fs := s.observers.foldl (fun fs o => o.update fs message) s.fs
    notified := s.notified ++ [message] }

end Subject

/-! ## UserManager -/

namespace UserManager

/-- The records read by `while (file >> storedUsername >> storedPassword >> storedRole)`
from `users.txt`. -/
def records (s : State) : List (String × String × String) :=
  triples (readWords s.fs "users.txt")

/-- The method `UserManager::doesUsernameExist`. -/
def doesUsernameExist (s : State) (username : String) : Bool :=
  (records s).any (fun r => r.1 = username)

/-- The method `UserManager::registerUser`. -/
def registerUser (s : State) (username password role : String) : State :=
  if doesUsernameExist s username then
    s.print "Username already exists! Try a different one.\n"
  else if role ≠ "admin" ∧ role ≠ "editor" ∧ role ≠ "viewer" then
    s.print "Invalid role! Use admin, editor, or viewer.\n"
  else
    let line := username ++ " " ++ password ++ " " ++ role ++ "\n"
    let s1 := { s with fs := appendFile s.fs "users.txt" line }
    let s2 := Subject.notify s1 ("User registered: " ++ username ++ " (" ++ role ++ ")")
    s2.print "Registration successful!\n"

/-- The method `UserManager::loginUser`; the second component is the value of
the reference parameter `role` after the call. -/
def loginUser (s : State) (username password role : String) : Bool × String × State :=
  match (records s).find? (fun r => r.1 = username ∧ r.2.1 = password) with
  | some r =>
    let s1 := Subject.notify s ("User logged in: " ++ username ++ " (" ++ r.2.2 ++ ")")
    (true, r.2.2, s1.print ("Login successful! Welcome, " ++ username ++ "!\n"))
  | none => (false, role, s.print "Invalid username or password!\n")

/-- The method `UserManager::logFileAction`. -/
def logFileAction (s : State) (username action filename : String) : State :=
  Subject.notify s ("User " ++ username ++ ": " ++ action ++ " file " ++ filename)

end UserManager

/-! ## Users -/

/-- The class `AdminUser` (fields of the `User` base class; `role` is fixed). -/
structure AdminUser where
  username : String
  password : String

/-- The class `EditorUser`. -/
structure EditorUser where
  username : String
  password : String

/-- The class `ViewerUser`. -/
structure ViewerUser where
  username : String
  password : String

namespace AdminUser

/-- The method `AdminUser::getRole`. -/
def getRole (_self : AdminUser) : String := "admin"

/-- The method `AdminUser::viewFiles`. -/
def viewFiles (self : AdminUser) (s : State) : State :=
  let names := readWords s.fs "files.txt"
  let s1 := s.print "Available files:\n"
  let s2 := names.foldl (fun st name => st.print (name ++ "\n")) s1
  if names = [] then s2.print "No files available.\n"
  else UserManager.logFileAction s2 self.username "viewed list of files" ""

/-- The method `AdminUser::viewFileContent`. -/
def viewFileContent (self : AdminUser) (s : State) (filename : String) : State :=
  match s.fs filename with
  | none => s.print "File does not exist!\n"
  | some text =>
    let s1 := s.print ("Content of " ++ filename ++ ":\n")
    let s2 := (getlines text).foldl (fun st line => st.print (line ++ "\n")) s1
    UserManager.logFileAction s2 self.username "viewed content of" filename

/-- The method `AdminUser::editFile`. -/
def editFile (self : AdminUser) (s : State) (filename content : String) : State :=
  match s.fs filename with
  | none => s.print "File does not exist!\n"
  | some _ =>
    let s1 := { s with fs := writeFile s.fs filename content }
    let s2 := UserManager.logFileAction s1 self.username "edited" filename
    s2.print "File edited successfully!\n"

/-- The method `AdminUser::createFile`. -/
def createFile (self : AdminUser) (s : State) (filename content : String) : State :=
  match s.fs filename with
  | some _ => s.print "File already exists!\n"
  | none =>
    let fs1 := writeFile s.fs filename content
    let fs2 := appendFile fs1 "files.txt" (filename ++ "\n")
    let s2 := UserManager.logFileAction { s with fs := fs2 } self.username "created" filename
    s2.print "File created successfully!\n"

/-- The method `AdminUser::deleteFile`. -/
def deleteFile (self : AdminUser) (s : State) (filename : String) : State :=
  match s.fs filename with
  | none => s.print "File does not exist!\n"
  | some _ =>
    match removeFile s.fs filename with
    | none => s.print "Error deleting file!\n"
    | some fs1 =>
      let kept := (readWords fs1 "files.txt").filter (fun stored => stored ≠ filename)
      let fs2 := writeFile fs1 "temp.txt" (writeLines kept)
      let fs3 := (removeFile fs2 "files.txt").getD fs2
      let fs4 := renameFile fs3 "temp.txt" "files.txt"
      let s4 := UserManager.logFileAction { s with fs := fs4 } self.username "deleted" filename
      s4.print "File deleted successfully!\n"

end AdminUser

namespace EditorUser

/-- The method `EditorUser::getRole`. -/
def getRole (_self : EditorUser) : String := "editor"

/-- The method `EditorUser::viewFiles`. -/
def viewFiles (self : EditorUser) (s : State) : State :=
  AdminUser.viewFiles ⟨self.username, self.password⟩ s

/-- The method `EditorUser::viewFileContent`. -/
def viewFileContent (self : EditorUser) (s : State) (filename : String) : State :=
  AdminUser.viewFileContent ⟨self.username, self.password⟩ s filename

/-- The method `EditorUser::editFile`. -/
def editFile (self : EditorUser) (s : State) (filename content : String) : State :=
  AdminUser.editFile ⟨self.username, self.password⟩ s filename content

/-- The method `EditorUser::createFile`. -/
def createFile (_self : EditorUser) (s : State) (_filename _content : String) : State :=
  s.print "Permission denied: Editors cannot create files!\n"

/-- The method `EditorUser::deleteFile`. -/
def deleteFile (_self : EditorUser) (s : State) (_filename : String) : State :=
  s.print "Permission denied: Editors cannot delete files!\n"

end EditorUser

namespace ViewerUser

/-- The method `ViewerUser::getRole`. -/
def getRole (_self : ViewerUser) : String := "viewer"

/-- The method `ViewerUser::viewFiles`. -/
def viewFiles (self : ViewerUser) (s : State) : State :=
  AdminUser.viewFiles ⟨self.username, self.password⟩ s

/-- The method `ViewerUser::viewFileContent`. -/
def viewFileContent (self : ViewerUser) (s : State) (filename : String) : State :=
  AdminUser.viewFileContent ⟨self.username, self.password⟩ s filename

/-- The method `ViewerUser::editFile`. -/
def editFile (_self : ViewerUser) (s : State) (_filename _content : String) : State :=
  s.print "Permission denied: Viewers cannot edit files!\n"

/-- The method `ViewerUser::createFile`. -/
def createFile (_self : ViewerUser) (s : State) (_filename _content : String) : State :=
  s.print "Permission denied: Viewers cannot create files!\n"

/-- The method `ViewerUser::deleteFile`. -/
def deleteFile (_self : ViewerUser) (s : State) (_filename : String) : State :=
  s.print "Permission denied: Viewers cannot delete files!\n"

end ViewerUser

/-- An object behind a `User *`: one of the three concrete classes. -/
inductive User where
  | admin (self : AdminUser)
  | editor (self : EditorUser)
  | viewer (self : ViewerUser)

namespace User

/-- The field `User::username`. -/
def username : User → String
  | admin a => a.username
  | editor e => e.username
  | viewer v => v.username

/-- Virtual call `user->getRole()`. -/
def getRole : User → String
  | admin a => a.getRole
  | editor e => e.getRole
  | viewer v => v.getRole

/-- Virtual call `user->viewFiles(userManager)`. -/
def viewFiles : User → State → State
  | admin a, s => a.viewFiles s
  | editor e, s => e.viewFiles s
  | viewer v, s => v.viewFiles s

/-- Virtual call `user->viewFileContent(userManager, filename)`. -/
def viewFileContent : User → State → String → State
  | admin a, s, filename => a.viewFileContent s filename
  | editor e, s, filename => e.viewFileContent s filename
  | viewer v, s, filename => v.viewFileContent s filename

/-- Virtual call `user->editFile(userManager, filename, content)`. -/
def editFile : User → State → String → String → State
  | admin a, s, filename, content => a.editFile s filename content
  | editor e, s, filename, content => e.editFile s filename content
  | viewer v, s, filename, content => v.editFile s filename content

/-- Virtual call `user->createFile(userManager, filename, content)`. -/
def createFile : User → State → String → String → State
  | admin a, s, filename, content => a.createFile s filename content
  | editor e, s, filename, content => e.createFile s filename content
  | viewer v, s, filename, content => v.createFile s filename content

/-- Virtual call `user->deleteFile(userManager, filename)`. -/
def deleteFile : User → State → String → State
  | admin a, s, filename => a.deleteFile s filename
  | editor e, s, filename => e.deleteFile s filename
  | viewer v, s, filename => v.deleteFile s filename

end User

namespace UserFactory

/-- The function `UserFactory::createUser`; `none` is `nullptr`. -/
def createUser (username password role : String) : Option User :=
  if role = "admin" then some (User.admin ⟨username, password⟩)
  else if role = "editor" then some (User.editor ⟨username, password⟩)
  else if role = "viewer" then some (User.viewer ⟨username, password⟩)
  else none

end UserFactory

/-- The state at program start in an empty directory, after `main` has
attached the logger. -/
def State.initial : State :=
  { fs := fun _ => none, observers := [Observer.logger], notified := [], out := "" }


/-- The operations of the capability table. -/
inductive Operation where
  | viewFiles
  | viewFileContent
  | createFile
  | editFile
  | deleteFile
  deriving DecidableEq, Repr

/-- The call of one operation on a `User *`, with the arguments it takes. -/
def User.perform (user : User) (op : Operation) (s : State) (filename content : String) : State :=
  match op with
  | .viewFiles => user.viewFiles s
  | .viewFileContent => user.viewFileContent s filename
  | .createFile => user.createFile s filename content
  | .editFile => user.editFile s filename content
  | .deleteFile => user.deleteFile s filename

/-- The field `User::password`. -/
def User.password : User → String
  | .admin a => a.password
  | .editor e => e.password
  | .viewer v => v.password

/-- The role capability table as the specification gives it: admin may do
everything, editor may list, view and edit, viewer may list and view. -/
def capabilityTable (role : String) (op : Operation) : Bool :=
  if role = "admin" then true
  else if role = "editor" then
    (op = Operation.viewFiles || op = Operation.viewFileContent || op = Operation.editFile)
  else if role = "viewer" then
    (op = Operation.viewFiles || op = Operation.viewFileContent)
  else false

/-- The names printed by `viewFiles`: the words of `files.txt`, in order. -/
def listedFiles (s : State) : List String :=
  readWords s.fs "files.txt"

/-- A text that `>>` reads back as one word: non-empty, without white space. -/
def isWord (w : String) : Bool :=
  w.data ≠ [] && w.data.all (fun c => !isspace c)

/-- A text after which an appended word is read as a word of its own:
empty, or ending in white space. -/
def endsClean (t : String) : Bool :=
  match t.data.getLast? with
  | none => true
  | some c => isspace c

/-- The state after the administrator `root` has created `a.txt`. -/
def State.oneFile : State :=
  AdminUser.createFile ⟨"root", "pw"⟩ State.initial "a.txt" "hi"

/-- The ledger file is absent, or it ends in white space (or is empty) and
holds complete records only. -/
def ledgerClean (s : State) : Bool :=
  match s.fs "users.txt" with
  | none => true
  | some text => endsClean text && (extractWords text).length % 3 = 0

/-- A sequence of `registerUser` calls, each given as (username, password, role). -/
def registerAll (s : State) (calls : List (String × String × String)) : State :=
  calls.foldl (fun st c => UserManager.registerUser st c.1 c.2.1 c.2.2) s

/-- The ledger after `a` registered as admin and replaced the content of
`users.txt` by the line `x`. -/
def State.editedLedger : State :=
  AdminUser.editFile ⟨"a", "pw"⟩ (UserManager.registerUser State.initial "a" "pw" "admin")
    "users.txt" "x\n"

/-- The ledger is well formed and no two of its records share a username. -/
def LedgerOk (s : State) : Prop :=
  ledgerClean s = true ∧ ((UserManager.records s).map (fun r => r.1)).Nodup

/-- One call of the operation surface: registration, login, or a file
operation invoked on a user object. -/
inductive Call where
  | registerUser (username password role : String)
  | loginUser (username password role : String)
  | viewFiles (user : User)
  | viewFileContent (user : User) (filename : String)
  | createFile (user : User) (filename content : String)
  | editFile (user : User) (filename content : String)
  | deleteFile (user : User) (filename : String)

/-- The state after one call. -/
def Call.apply : Call → State → State
  | .registerUser u p r, s => UserManager.registerUser s u p r
  | .loginUser u p r, s => (UserManager.loginUser s u p r).2.2
  | .viewFiles user, s => user.viewFiles s
  | .viewFileContent user f, s => user.viewFileContent s f
  | .createFile user f c, s => user.createFile s f c
  | .editFile user f c, s => user.editFile s f c
  | .deleteFile user f, s => user.deleteFile s f

theorem wordsAux_word (w : List Char) (hw : ∀ c ∈ w, isspace c = false) (sp : Char)
    (hsp : isspace sp = true) (rest : List Char) :
    ∀ acc : List Char, (acc ≠ [] ∨ w ≠ []) →
      wordsAux (w ++ sp :: rest) acc = String.mk (acc.reverse ++ w) :: wordsAux rest [] := by
  induction w with
  | nil =>
    intro acc h
    have hacc : acc ≠ [] := by
      rcases h with h | h
      · exact h
      · exact absurd rfl h
    simp [wordsAux, hsp, hacc]
  | cons c w ih =>
    intro acc _
    have hc : isspace c = false := hw c (List.mem_cons_self c w)
    have hw2 : ∀ d ∈ w, isspace d = false := fun d hd => hw d (List.mem_cons_of_mem c hd)
    have := ih hw2 (c :: acc) (Or.inl (List.cons_ne_nil c acc))
    simp [wordsAux, hc, this]

theorem wordsAux_append_sep (a : List Char) (sp : Char) (hsp : isspace sp = true)
    (b : List Char) :
    ∀ acc : List Char, wordsAux (a ++ sp :: b) acc = wordsAux (a ++ [sp]) acc ++ wordsAux b [] := by
  induction a with
  | nil =>
    intro acc
    by_cases hacc : acc = [] <;> simp [wordsAux, hsp, hacc]
  | cons c a ih =>
    intro acc
    by_cases hc : isspace c = true
    · by_cases hacc : acc = [] <;> simp [wordsAux, hc, hacc, ih]
    · simp [wordsAux, hc, ih]

theorem isWord_data {w : String} (h : isWord w = true) :
    w.data ≠ [] ∧ ∀ c ∈ w.data, isspace c = false := by
  simp [isWord] at h
  exact h

theorem extractWords_empty : extractWords "" = [] := by
  decide

theorem extractWords_clean_append (t u : String) (ht : endsClean t = true) :
    extractWords (t ++ u) = extractWords t ++ extractWords u := by
  unfold extractWords
  rw [String.data_append]
  rcases List.eq_nil_or_concat t.data with h | ⟨a, sp, h⟩
  · simp [h, wordsAux]
  · have hsp : isspace sp = true := by
      simpa [endsClean, h] using ht
    rw [h]
    simp only [List.concat_eq_append, List.append_assoc, List.singleton_append]
    exact wordsAux_append_sep a sp hsp u.data []

theorem extractWords_word_line (w rest : String) (hw : isWord w = true) (sp : String)
    (hsp : sp = " " ∨ sp = "\n") :
    extractWords (w ++ sp ++ rest) = w :: extractWords rest := by
  obtain ⟨hne, hall⟩ := isWord_data hw
  unfold extractWords
  rw [String.data_append, String.data_append]
  rcases hsp with rfl | rfl
  · have := wordsAux_word w.data hall ' ' (by decide) rest.data [] (Or.inr hne)
    simpa using this
  · have := wordsAux_word w.data hall '\n' (by decide) rest.data [] (Or.inr hne)
    simpa using this

theorem foldl_writeLines (xs : List String) :
    ∀ init : String, xs.foldl (fun text x => text ++ x ++ "\n") init = init ++ writeLines xs := by
  induction xs with
  | nil => intro init; simp [writeLines]
  | cons x xs ih =>
    intro init
    simp only [writeLines, List.foldl_cons]
    rw [ih, ih ("" ++ x ++ "\n")]
    simp [String.append_assoc]

theorem writeLines_cons (x : String) (xs : List String) :
    writeLines (x :: xs) = x ++ "\n" ++ writeLines xs := by
  simp only [writeLines, List.foldl_cons]
  rw [foldl_writeLines]
  simp [writeLines]

theorem endsClean_append_newline (t : String) : endsClean (t ++ "\n") = true := by
  simp [endsClean, String.data_append]
  decide

@[simp] theorem print_fs (s : State) (t : String) : (s.print t).fs = s.fs := rfl
@[simp] theorem print_notified (s : State) (t : String) : (s.print t).notified = s.notified := rfl
@[simp] theorem print_observers (s : State) (t : String) : (s.print t).observers = s.observers := rfl
@[simp] theorem print_out (s : State) (t : String) : (s.print t).out = s.out ++ t := rfl

@[simp] theorem notify_notified (s : State) (m : String) :
    (Subject.notify s m).notified = s.notified ++ [m] := rfl
@[simp] theorem notify_observers (s : State) (m : String) :
    (Subject.notify s m).observers = s.observers := rfl
@[simp] theorem notify_out (s : State) (m : String) : (Subject.notify s m).out = s.out := rfl

theorem observers_update_other (obs : List Observer) (m n : String) (hn : n ≠ "log.txt") :
    ∀ fs : FileSystem, (obs.foldl (fun fs o => o.update fs m) fs) n = fs n := by
  induction obs with
  | nil => intro fs; rfl
  | cons o obs ih =>
    intro fs
    cases o
    simp only [List.foldl_cons]
    rw [ih]
    simp [Observer.update, Logger.update, appendFile, hn]

theorem notify_fs_other (s : State) (m n : String) (hn : n ≠ "log.txt") :
    (Subject.notify s m).fs n = s.fs n :=
  observers_update_other s.observers m n hn s.fs

theorem foldl_print (names : List String) :
    ∀ s : State, names.foldl (fun st name => st.print (name ++ "\n")) s
      = { s with out := s.out ++ writeLines names } := by
  induction names with
  | nil => intro s; simp [writeLines]
  | cons x xs ih =>
    intro s
    simp only [List.foldl_cons]
    rw [ih, writeLines_cons]
    simp [State.print, String.append_assoc]

theorem append_left_ne (a b c : String) (h : b ≠ c) : a ++ b ≠ a ++ c := by
  intro heq
  apply h
  have := congrArg String.data heq
  simp only [String.data_append, List.append_cancel_left_eq] at this
  exact String.ext this


theorem logMessage (u a ab f : String) (h : ": " ++ a ++ " file " = ab) :
    "User " ++ u ++ ": " ++ a ++ " file " ++ f = "User " ++ u ++ ab ++ f := by
  subst h
  simp [String.append_assoc]

/-! ## The capability table -/

/-- C1: every user object, whatever its role, follows the capability table:
the factory builds it from its role name, an allowed operation is exactly
AdminUser's method run under the caller's own username, and a denied operation
leaves all files (ledger, index, contents, log), the notifications and the
observers unchanged. -/
theorem capability_table_followed (user : User) (op : Operation) (s : State)
    (filename content : String) :
    UserFactory.createUser user.username user.password user.getRole = some user ∧
    (user.getRole = "admin" ∨ user.getRole = "editor" ∨ user.getRole = "viewer") ∧
    if capabilityTable user.getRole op = true then
      user.perform op s filename content
        = (User.admin ⟨user.username, user.password⟩).perform op s filename content
    else
      (user.perform op s filename content).fs = s.fs ∧
      (user.perform op s filename content).notified = s.notified ∧
      (user.perform op s filename content).observers = s.observers := by
  cases user <;> cases op <;>
    simp [UserFactory.createUser, User.username, User.password, User.getRole,
      AdminUser.getRole, EditorUser.getRole, ViewerUser.getRole, capabilityTable] <;>
    first
    | rfl
    | (simp [User.perform, User.createFile, User.deleteFile, User.editFile,
        EditorUser.createFile, EditorUser.deleteFile, ViewerUser.createFile,
        ViewerUser.deleteFile, ViewerUser.editFile])

/-! ## Audit notifications -/

/-- C9: a createFile, editFile or deleteFile call either succeeds and makes
exactly one notify call with the message "User u: created file f",
"User u: edited file f" or "User u: deleted file f", or it does not succeed
(denied by role, or failed) and makes no notify call. -/
theorem mutation_notifies_once (user : User) (s : State) (filename content : String) :
    (((user.createFile s filename content).out = s.out ++ "File created successfully!\n" ∧
        (user.createFile s filename content).notified
          = s.notified ++ ["User " ++ user.username ++ ": created file " ++ filename]) ∨
      ((user.createFile s filename content).out ≠ s.out ++ "File created successfully!\n" ∧
        (user.createFile s filename content).notified = s.notified)) ∧
    (((user.editFile s filename content).out = s.out ++ "File edited successfully!\n" ∧
        (user.editFile s filename content).notified
          = s.notified ++ ["User " ++ user.username ++ ": edited file " ++ filename]) ∨
      ((user.editFile s filename content).out ≠ s.out ++ "File edited successfully!\n" ∧
        (user.editFile s filename content).notified = s.notified)) ∧
    (((user.deleteFile s filename).out = s.out ++ "File deleted successfully!\n" ∧
        (user.deleteFile s filename).notified
          = s.notified ++ ["User " ++ user.username ++ ": deleted file " ++ filename]) ∨
      ((user.deleteFile s filename).out ≠ s.out ++ "File deleted successfully!\n" ∧
        (user.deleteFile s filename).notified = s.notified)) := by
  have hc := logMessage user.username "created" ": created file " filename (by decide)
  have he := logMessage user.username "edited" ": edited file " filename (by decide)
  have hd := logMessage user.username "deleted" ": deleted file " filename (by decide)
  refine ⟨?_, ?_, ?_⟩
  · cases user with
    | admin a =>
      cases h : s.fs filename with
      | none =>
        left
        simpa [User.createFile, AdminUser.createFile, h, UserManager.logFileAction,
          User.username] using hc
      | some t =>
        right
        simp only [User.createFile, AdminUser.createFile, h, print_out, print_notified]
        exact ⟨append_left_ne _ _ _ (by decide), trivial⟩
    | editor e =>
      right
      simp only [User.createFile, EditorUser.createFile, print_out, print_notified]
      exact ⟨append_left_ne _ _ _ (by decide), trivial⟩
    | viewer v =>
      right
      simp only [User.createFile, ViewerUser.createFile, print_out, print_notified]
      exact ⟨append_left_ne _ _ _ (by decide), trivial⟩
  · cases user with
    | admin a =>
      cases h : s.fs filename with
      | some t =>
        left
        simpa [User.editFile, AdminUser.editFile, h, UserManager.logFileAction,
          User.username] using he
      | none =>
        right
        simp only [User.editFile, AdminUser.editFile, h, print_out, print_notified]
        exact ⟨append_left_ne _ _ _ (by decide), trivial⟩
    | editor e =>
      cases h : s.fs filename with
      | some t =>
        left
        simpa [User.editFile, EditorUser.editFile, AdminUser.editFile, h,
          UserManager.logFileAction, User.username] using he
      | none =>
        right
        simp only [User.editFile, EditorUser.editFile, AdminUser.editFile, h, print_out,
          print_notified]
        exact ⟨append_left_ne _ _ _ (by decide), trivial⟩
    | viewer v =>
      right
      simp only [User.editFile, ViewerUser.editFile, print_out, print_notified]
      exact ⟨append_left_ne _ _ _ (by decide), trivial⟩
  · cases user with
    | admin a =>
      cases h : s.fs filename with
      | some t =>
        left
        simpa [User.deleteFile, AdminUser.deleteFile, h, removeFile,
          UserManager.logFileAction, User.username] using hd
      | none =>
        right
        simp only [User.deleteFile, AdminUser.deleteFile, h, print_out, print_notified]
        exact ⟨append_left_ne _ _ _ (by decide), trivial⟩
    | editor e =>
      right
      simp only [User.deleteFile, EditorUser.deleteFile, print_out, print_notified]
      exact ⟨append_left_ne _ _ _ (by decide), trivial⟩
    | viewer v =>
      right
      simp only [User.deleteFile, ViewerUser.deleteFile, print_out, print_notified]
      exact ⟨append_left_ne _ _ _ (by decide), trivial⟩

/-- The notify calls of viewFiles: none when the index lists nothing, else one,
with the message that `logFileAction` builds from an empty filename. -/
theorem viewFiles_notified (user : User) (s : State) :
    (user.viewFiles s).notified
      = if listedFiles s = [] then s.notified
        else s.notified ++ ["User " ++ user.username ++ ": viewed list of files file "] := by
  have hm := logMessage user.username "viewed list of files" ": viewed list of files file " ""
    (by decide)
  have key : ∀ a : AdminUser, a.username = user.username →
      (a.viewFiles s).notified
        = if listedFiles s = [] then s.notified
          else s.notified ++ ["User " ++ user.username ++ ": viewed list of files file "] := by
    intro a ha
    unfold AdminUser.viewFiles listedFiles
    simp only [foldl_print]
    split
    · rfl
    · simp only [UserManager.logFileAction, notify_notified, ha]
      rw [hm]
      simp
  cases user with
  | admin a => exact key a rfl
  | editor e => exact key ⟨e.username, e.password⟩ rfl
  | viewer v => exact key ⟨v.username, v.password⟩ rfl

/-- C10: evaluation of viewFiles at a non-empty index.  After an admin has
created `a.txt`, a viewer `u` listing the files makes one notify call, and its
message is "User u: viewed list of files file ", which is not the message
"User u: viewed list of files". -/
theorem viewFiles_message_evaluated :
    (User.viewFiles (User.viewer ⟨"u", "p"⟩)
        (AdminUser.createFile ⟨"root", "pw"⟩ State.initial "a.txt" "hi")).notified
      = (AdminUser.createFile ⟨"root", "pw"⟩ State.initial "a.txt" "hi").notified
          ++ ["User u: viewed list of files file "] ∧
    "User u: viewed list of files file " ≠ "User u: viewed list of files" := by
  decide


/-! ## File-system lemmas -/

/-- C5 (as amended): for every role allowed to edit (admin, editor), every
content and every filename for which no file exists, editFile prints
"File does not exist!" and leaves every file (the index included), the
notifications and the observers unchanged. -/
theorem editFile_missing_file (user : User)
    (hrole : user.getRole = "admin" ∨ user.getRole = "editor") (s : State)
    (filename content : String) (h : s.fs filename = none) :
    (user.editFile s filename content).out = s.out ++ "File does not exist!\n" ∧
    (user.editFile s filename content).fs = s.fs ∧
    (user.editFile s filename content).notified = s.notified ∧
    (user.editFile s filename content).observers = s.observers := by
  cases user with
  | admin a => simp [User.editFile, AdminUser.editFile, h]
  | editor e => simp [User.editFile, EditorUser.editFile, AdminUser.editFile, h]
  | viewer v =>
    exfalso
    have hv : (User.viewer v).getRole = "viewer" := rfl
    rw [hv] at hrole
    revert hrole
    decide

/-- C5 (witness of the amended claim): an editor edits `b.txt`, which does not exist. -/
theorem editFile_missing_file_witness :
    (User.editFile (User.editor ⟨"u", "p"⟩) State.oneFile "b.txt" "x").out
      = State.oneFile.out ++ "File does not exist!\n" :=
  (editFile_missing_file (User.editor ⟨"u", "p"⟩) (Or.inr (by decide)) State.oneFile
    "b.txt" "x" (by decide)).1

/-- C5 (counterexample): after `a.txt` was created the index lists `a.txt`
only; `files.txt` is not listed, yet an editor's editFile on `files.txt`
succeeds and the index afterwards lists `ghost` instead of `a.txt`. -/
theorem editFile_unlisted_succeeds :
    listedFiles State.oneFile = ["a.txt"] ∧
    "files.txt" ∉ listedFiles State.oneFile ∧
    (User.editFile (User.editor ⟨"u", "p"⟩) State.oneFile "files.txt" "ghost\n").out
      = State.oneFile.out ++ "File edited successfully!\n" ∧
    (User.editFile (User.editor ⟨"u", "p"⟩) State.oneFile "files.txt" "ghost\n").out
      ≠ State.oneFile.out ++ "File does not exist!\n" ∧
    listedFiles (User.editFile (User.editor ⟨"u", "p"⟩) State.oneFile "files.txt" "ghost\n")
      = ["ghost"] := by
  decide

/-! ## Deleting -/

theorem triples_append_of_length (ys : List String) :
    ∀ (n : Nat) (xs : List String), xs.length = 3 * n →
      triples (xs ++ ys) = triples xs ++ triples ys := by
  intro n
  induction n with
  | zero =>
    intro xs h
    have : xs = [] := List.length_eq_zero.mp (by simpa using h)
    subst this
    simp [triples]
  | succ n ih =>
    intro xs h
    match xs, h with
    | a :: b :: c :: rest, h =>
      have hr : rest.length = 3 * n := by
        simp only [List.length_cons] at h
        omega
      simp [triples, ih rest hr]
    | [], h => simp at h
    | [_], h => simp at h; omega
    | [_, _], h => simp at h; omega

theorem triples_append (xs ys : List String) (h : xs.length % 3 = 0) :
    triples (xs ++ ys) = triples xs ++ triples ys :=
  triples_append_of_length ys (xs.length / 3) xs (by omega)

theorem extractWords_record (u p r : String) (hu : isWord u = true) (hp : isWord p = true)
    (hr : isWord r = true) :
    extractWords (u ++ " " ++ p ++ " " ++ r ++ "\n") = [u, p, r] := by
  have e : u ++ " " ++ p ++ " " ++ r ++ "\n" = u ++ " " ++ (p ++ " " ++ (r ++ "\n" ++ "")) := by
    simp [String.append_assoc]
  rw [e, extractWords_word_line u _ hu " " (Or.inl rfl),
    extractWords_word_line p _ hp " " (Or.inl rfl),
    extractWords_word_line r _ hr "\n" (Or.inr rfl), extractWords_empty]

theorem registerUser_of_exists (s : State) (u p r : String)
    (h : UserManager.doesUsernameExist s u = true) :
    UserManager.registerUser s u p r
      = s.print "Username already exists! Try a different one.\n" := by
  simp [UserManager.registerUser, h]

theorem registerUser_of_bad_role (s : State) (u p r : String)
    (h : UserManager.doesUsernameExist s u = false)
    (hr : r ≠ "admin" ∧ r ≠ "editor" ∧ r ≠ "viewer") :
    UserManager.registerUser s u p r = s.print "Invalid role! Use admin, editor, or viewer.\n" := by
  simp [UserManager.registerUser, h, hr]

theorem registerUser_of_ok (s : State) (u p r : String)
    (h : UserManager.doesUsernameExist s u = false)
    (hr : r = "admin" ∨ r = "editor" ∨ r = "viewer") :
    UserManager.registerUser s u p r
      = (Subject.notify
          { s with fs := appendFile s.fs "users.txt" (u ++ " " ++ p ++ " " ++ r ++ "\n") }
          ("User registered: " ++ u ++ " (" ++ r ++ ")")).print "Registration successful!\n" := by
  have h2 : ¬ (r ≠ "admin" ∧ r ≠ "editor" ∧ r ≠ "viewer") := by
    rintro ⟨a, b, c⟩
    rcases hr with e | e | e
    · exact a e
    · exact b e
    · exact c e
  unfold UserManager.registerUser
  rw [if_neg (by simp [h]), if_neg h2]

theorem role_cases (r : String) :
    (r = "admin" ∨ r = "editor" ∨ r = "viewer") ∨ (r ≠ "admin" ∧ r ≠ "editor" ∧ r ≠ "viewer") := by
  by_cases a : r = "admin"
  · exact Or.inl (Or.inl a)
  · by_cases b : r = "editor"
    · exact Or.inl (Or.inr (Or.inl b))
    · by_cases c : r = "viewer"
      · exact Or.inl (Or.inr (Or.inr c))
      · exact Or.inr ⟨a, b, c⟩

theorem registerUser_succeeds_iff (s : State) (u p r : String) :
    (UserManager.registerUser s u p r).out = s.out ++ "Registration successful!\n"
      ↔ UserManager.doesUsernameExist s u = false ∧ (r = "admin" ∨ r = "editor" ∨ r = "viewer") := by
  cases h1 : UserManager.doesUsernameExist s u with
  | true =>
    rw [registerUser_of_exists s u p r h1]
    simp only [print_out, Bool.true_eq_false, false_and, iff_false]
    exact append_left_ne _ _ _ (by decide)
  | false =>
    rcases role_cases r with hr | hr
    · rw [registerUser_of_ok s u p r h1 hr]
      simp [hr]
    · rw [registerUser_of_bad_role s u p r h1 hr]
      simp only [print_out, true_and]
      constructor
      · intro h
        exact absurd h (append_left_ne _ _ _ (by decide))
      · rintro (h | h | h)
        · exact absurd h hr.1
        · exact absurd h hr.2.1
        · exact absurd h hr.2.2

theorem registerUser_of_fail (s : State) (u p r : String)
    (h : (UserManager.registerUser s u p r).out ≠ s.out ++ "Registration successful!\n") :
    (UserManager.registerUser s u p r).fs = s.fs ∧
    (UserManager.registerUser s u p r).notified = s.notified := by
  cases h1 : UserManager.doesUsernameExist s u with
  | true =>
    rw [registerUser_of_exists s u p r h1]
    exact ⟨rfl, rfl⟩
  | false =>
    rcases role_cases r with hr | hr
    · exact absurd ((registerUser_succeeds_iff s u p r).mpr ⟨h1, hr⟩) h
    · rw [registerUser_of_bad_role s u p r h1 hr]
      exact ⟨rfl, rfl⟩

theorem isWord_role (r : String) (h : r = "admin" ∨ r = "editor" ∨ r = "viewer") :
    isWord r = true := by
  rcases h with h | h | h <;> subst h <;> decide

/-- The ledger after a successful registration of words into a clean ledger. -/
theorem registerUser_records (s : State) (u p r : String) (hclean : ledgerClean s = true)
    (hu : isWord u = true) (hp : isWord p = true)
    (hsucc : (UserManager.registerUser s u p r).out = s.out ++ "Registration successful!\n") :
    UserManager.records (UserManager.registerUser s u p r) = UserManager.records s ++ [(u, p, r)] ∧
    ledgerClean (UserManager.registerUser s u p r) = true := by
  obtain ⟨hex, hrole⟩ := (registerUser_succeeds_iff s u p r).mp hsucc
  have hr : isWord r = true := isWord_role r hrole
  have hfs : (UserManager.registerUser s u p r).fs "users.txt"
      = some ((s.fs "users.txt").getD "" ++ (u ++ " " ++ p ++ " " ++ r ++ "\n")) := by
    rw [registerUser_of_ok s u p r hex hrole, print_fs, notify_fs_other _ _ _ (by decide)]
    simp [appendFile]
  have hline := extractWords_record u p r hu hp hr
  unfold ledgerClean at hclean
  unfold UserManager.records ledgerClean
  rw [readWords, hfs]
  simp only []
  cases hf : s.fs "users.txt" with
  | none =>
    have hw : extractWords ("" ++ (u ++ " " ++ p ++ " " ++ r ++ "\n")) = [u, p, r] := by
      rw [extractWords_clean_append "" _ (by decide), extractWords_empty, hline]
      rfl
    have hc : endsClean ("" ++ (u ++ " " ++ p ++ " " ++ r ++ "\n")) = true := by
      have := endsClean_append_newline ("" ++ (u ++ " " ++ p ++ " " ++ r))
      simpa [String.append_assoc] using this
    simp only [readWords, hf, Option.getD_none, hw, hc]
    exact ⟨by simp [triples], by simp⟩
  | some text =>
    rw [hf] at hclean
    simp only [Bool.and_eq_true, decide_eq_true_eq] at hclean
    have hw : extractWords (text ++ (u ++ " " ++ p ++ " " ++ r ++ "\n"))
        = extractWords text ++ [u, p, r] := by
      rw [extractWords_clean_append text _ hclean.1, hline]
    have hc : endsClean (text ++ (u ++ " " ++ p ++ " " ++ r ++ "\n")) = true := by
      have := endsClean_append_newline (text ++ (u ++ " " ++ p ++ " " ++ r))
      simpa [String.append_assoc] using this
    simp only [readWords, hf, Option.getD_some, hw, hc]
    refine ⟨?_, ?_⟩
    · rw [triples_append _ _ hclean.2]
      simp [triples]
    · simp only [List.length_append, List.length_cons, List.length_nil, Bool.true_and,
        decide_eq_true_eq]
      omega

/-- C8 (as amended): for every ledger that is absent, or ends in white space
and holds complete records only, every username u and password p1 that are
non-empty words without white space, and every p2, r1, r2: if
registerUser(u, p1, r1) succeeds, then a following registerUser(u, p2, r2)
prints "Username already exists! Try a different one.", appends nothing to
the ledger (no file changes) and makes no notify call. -/
theorem duplicate_registration_rejected (s : State) (u p1 r1 p2 r2 : String)
    (hclean : ledgerClean s = true) (hu : isWord u = true) (hp : isWord p1 = true)
    (hsucc : (UserManager.registerUser s u p1 r1).out = s.out ++ "Registration successful!\n") :
    (UserManager.registerUser (UserManager.registerUser s u p1 r1) u p2 r2).out
      = (UserManager.registerUser s u p1 r1).out
          ++ "Username already exists! Try a different one.\n" ∧
    (UserManager.registerUser (UserManager.registerUser s u p1 r1) u p2 r2).fs
      = (UserManager.registerUser s u p1 r1).fs ∧
    (UserManager.registerUser (UserManager.registerUser s u p1 r1) u p2 r2).notified
      = (UserManager.registerUser s u p1 r1).notified := by
  have hrec := (registerUser_records s u p1 r1 hclean hu hp hsucc).1
  have hex : UserManager.doesUsernameExist (UserManager.registerUser s u p1 r1) u = true := by
    unfold UserManager.doesUsernameExist
    rw [hrec]
    simp
  generalize UserManager.registerUser s u p1 r1 = s1 at hex ⊢
  simp [UserManager.registerUser, hex]

/-- C8 (witness of the amended claim): `u` registers twice in the initial state. -/
theorem duplicate_registration_rejected_witness :
    (UserManager.registerUser (UserManager.registerUser State.initial "u" "p" "viewer")
        "u" "q" "admin").out
      = (UserManager.registerUser State.initial "u" "p" "viewer").out
          ++ "Username already exists! Try a different one.\n" :=
  (duplicate_registration_rejected State.initial "u" "p" "viewer" "q" "admin"
    (by decide) (by decide) (by decide) (by decide)).1

/-- C8 (counterexample): after the admin `a` has edited `users.txt` to the
single line `x`, registerUser("u", "q", "viewer") succeeds and a following
registerUser("u", "q2", "editor") succeeds as well: it appends a second record
line for `u` to the ledger and makes a notify call. -/
theorem duplicate_registration_accepted :
    (UserManager.registerUser State.editedLedger "u" "q" "viewer").out
      = State.editedLedger.out ++ "Registration successful!\n" ∧
    (UserManager.registerUser (UserManager.registerUser State.editedLedger "u" "q" "viewer")
        "u" "q2" "editor").out
      = (UserManager.registerUser State.editedLedger "u" "q" "viewer").out
          ++ "Registration successful!\n" ∧
    (UserManager.registerUser (UserManager.registerUser State.editedLedger "u" "q" "viewer")
        "u" "q2" "editor").fs "users.txt"
      = some "x\nu q viewer\nu q2 editor\n" ∧
    (UserManager.registerUser (UserManager.registerUser State.editedLedger "u" "q" "viewer")
        "u" "q2" "editor").notified
      = (UserManager.registerUser State.editedLedger "u" "q" "viewer").notified
          ++ ["User registered: u (editor)"] := by
  decide

/-! ## Login after registration -/

theorem records_congr (s1 s2 : State) (h : s1.fs = s2.fs) :
    UserManager.records s1 = UserManager.records s2 ∧ ledgerClean s1 = ledgerClean s2 := by
  unfold UserManager.records ledgerClean
  rw [h]
  exact ⟨rfl, rfl⟩

/-- One `registerUser` call with words keeps the ledger well formed and keeps
every record already in it. -/
theorem registerUser_ledgerOk (s : State) (u p r : String) (hu : isWord u = true)
    (hp : isWord p = true) (h : LedgerOk s) :
    LedgerOk (UserManager.registerUser s u p r) ∧
    ∀ m ∈ UserManager.records s, m ∈ UserManager.records (UserManager.registerUser s u p r) := by
  by_cases hsucc : (UserManager.registerUser s u p r).out = s.out ++ "Registration successful!\n"
  · obtain ⟨hrec, hclean⟩ := registerUser_records s u p r h.1 hu hp hsucc
    obtain ⟨hex, _⟩ := (registerUser_succeeds_iff s u p r).mp hsucc
    refine ⟨⟨hclean, ?_⟩, ?_⟩
    · rw [hrec, List.map_append, List.nodup_append]
      refine ⟨h.2, by simp, ?_⟩
      intro a ha hb
      simp only [List.map_cons, List.map_nil, List.mem_singleton] at hb
      subst hb
      obtain ⟨m, hm, hma⟩ := List.mem_map.mp ha
      unfold UserManager.doesUsernameExist at hex
      have := List.any_eq_false.mp hex m hm
      simp at this
      exact this hma
    · intro m hm
      rw [hrec]
      exact List.mem_append_left _ hm
  · obtain ⟨hfs, _⟩ := registerUser_of_fail s u p r hsucc
    obtain ⟨hrec, hclean⟩ := records_congr _ _ hfs
    refine ⟨⟨by rw [hclean]; exact h.1, by rw [hrec]; exact h.2⟩, ?_⟩
    intro m hm
    rw [hrec]
    exact hm

theorem registerAll_ledgerOk (calls : List (String × String × String))
    (hwords : ∀ c ∈ calls, isWord c.1 = true ∧ isWord c.2.1 = true) :
    ∀ s : State, LedgerOk s →
      LedgerOk (registerAll s calls) ∧
      ∀ m ∈ UserManager.records s, m ∈ UserManager.records (registerAll s calls) := by
  induction calls with
  | nil => intro s h; exact ⟨h, fun m hm => hm⟩
  | cons c cs ih =>
    intro s h
    have hc := hwords c (List.mem_cons_self c cs)
    obtain ⟨h1, hm1⟩ := registerUser_ledgerOk s c.1 c.2.1 c.2.2 hc.1 hc.2 h
    obtain ⟨h2, hm2⟩ := ih (fun d hd => hwords d (List.mem_cons_of_mem c hd)) _ h1
    exact ⟨h2, fun m hm => hm2 m (hm1 m hm)⟩

theorem registerAll_append (s : State) (xs ys : List (String × String × String)) :
    registerAll s (xs ++ ys) = registerAll (registerAll s xs) ys := by
  simp [registerAll, List.foldl_append]

theorem registerAll_cons (s : State) (c : String × String × String)
    (cs : List (String × String × String)) :
    registerAll s (c :: cs) = registerAll (UserManager.registerUser s c.1 c.2.1 c.2.2) cs := rfl

/-- Login against a well-formed ledger that holds the record (u, p, r). -/
theorem loginUser_of_record (s : State) (h : LedgerOk s) (u p r : String)
    (hm : (u, p, r) ∈ UserManager.records s) :
    (∀ role0 : String, (UserManager.loginUser s u p role0).1 = true ∧
      (UserManager.loginUser s u p role0).2.1 = r) ∧
    (∀ q role0 : String, q ≠ p → (UserManager.loginUser s u q role0).1 = false) := by
  have hinj := List.inj_on_of_nodup_map h.2
  constructor
  · intro role0
    unfold UserManager.loginUser
    cases hfind : (UserManager.records s).find? (fun x => x.1 = u ∧ x.2.1 = p) with
    | none =>
      have := List.find?_eq_none.mp hfind (u, p, r) hm
      simp at this
    | some x =>
      have hx := List.mem_of_find?_eq_some hfind
      have hp := List.find?_some hfind
      simp only [decide_eq_true_eq] at hp
      have : x = (u, p, r) := hinj hx hm hp.1
      subst this
      exact ⟨rfl, rfl⟩
  · intro q role0 hq
    unfold UserManager.loginUser
    cases hfind : (UserManager.records s).find? (fun x => x.1 = u ∧ x.2.1 = q) with
    | none => rfl
    | some x =>
      exfalso
      have hx := List.mem_of_find?_eq_some hfind
      have hp := List.find?_some hfind
      simp only [decide_eq_true_eq] at hp
      have : x = (u, p, r) := hinj hx hm hp.1
      subst this
      exact hq hp.2.symm

/-- C2 (as amended): for every ledger built from the empty ledger by
registerUser calls whose usernames and passwords are non-empty words without
white space, and every (username, password, role) whose registerUser call
succeeded, loginUser(username, password) returns true and sets the role to the
registered role, and loginUser(username, q) returns false for every q other
than the registered password. -/
theorem login_after_registration (s0 : State)
    (h0 : s0.fs "users.txt" = none ∨ s0.fs "users.txt" = some "")
    (before after : List (String × String × String)) (u p r : String)
    (hwords : ∀ c ∈ before ++ (u, p, r) :: after, isWord c.1 = true ∧ isWord c.2.1 = true)
    (hsucc : (UserManager.registerUser (registerAll s0 before) u p r).out
      = (registerAll s0 before).out ++ "Registration successful!\n") :
    (∀ role0 : String,
      (UserManager.loginUser (registerAll s0 (before ++ (u, p, r) :: after)) u p role0).1 = true ∧
      (UserManager.loginUser (registerAll s0 (before ++ (u, p, r) :: after)) u p role0).2.1 = r) ∧
    (∀ q role0 : String, q ≠ p →
      (UserManager.loginUser (registerAll s0 (before ++ (u, p, r) :: after)) u q role0).1
        = false) := by
  have hs0 : LedgerOk s0 := by
    unfold LedgerOk ledgerClean UserManager.records readWords
    rcases h0 with h | h <;> rw [h]
    · exact ⟨rfl, by simp [triples]⟩
    · exact ⟨by decide, by simp [extractWords_empty, triples]⟩
  have hb : ∀ c ∈ before, isWord c.1 = true ∧ isWord c.2.1 = true :=
    fun c hc => hwords c (List.mem_append_left _ hc)
  have hupr := hwords (u, p, r) (List.mem_append_right _ (List.mem_cons_self _ _))
  have ha : ∀ c ∈ after, isWord c.1 = true ∧ isWord c.2.1 = true :=
    fun c hc => hwords c (List.mem_append_right _ (List.mem_cons_of_mem _ hc))
  obtain ⟨h1, _⟩ := registerAll_ledgerOk before hb s0 hs0
  obtain ⟨h2, _⟩ := registerUser_ledgerOk (registerAll s0 before) u p r hupr.1 hupr.2 h1
  obtain ⟨hrec, _⟩ := registerUser_records (registerAll s0 before) u p r h1.1 hupr.1 hupr.2 hsucc
  obtain ⟨h3, hm3⟩ := registerAll_ledgerOk after ha _ h2
  have hmem : (u, p, r) ∈ UserManager.records (registerAll s0 (before ++ (u, p, r) :: after)) := by
    rw [registerAll_append, registerAll_cons]
    apply hm3
    rw [hrec]
    simp
  have hok : LedgerOk (registerAll s0 (before ++ (u, p, r) :: after)) := by
    rw [registerAll_append, registerAll_cons]
    exact h3
  exact loginUser_of_record _ hok u p r hmem

/-- C2 (witness of the amended claim): `u` registers between `a` and `b`. -/
theorem login_after_registration_witness :
    (UserManager.loginUser
        (registerAll State.initial ([("a", "x", "admin")] ++ ("u", "p", "viewer") :: [("b", "y", "editor")]))
        "u" "p" "").2.1 = "viewer" :=
  ((login_after_registration State.initial (Or.inl rfl) [("a", "x", "admin")]
    [("b", "y", "editor")] "u" "p" "viewer" (by decide) (by decide)).1 "").2

/-- C2 (counterexample): registerUser("u", "my pass", "admin") on the empty
ledger succeeds, and loginUser("u", "my pass") then returns false. -/
theorem login_fails_after_registration :
    (UserManager.registerUser State.initial "u" "my pass" "admin").out
      = State.initial.out ++ "Registration successful!\n" ∧
    (UserManager.loginUser (registerAll State.initial [("u", "my pass", "admin")])
        "u" "my pass" "").1 = false := by
  decide

/-! ## The index/content invariant -/

end CMS
